import Mathlib

/-!
Verification of the football-IQ answer-matching and scoring core.

This file gives a shallow embedding in Lean 4 of the pure utility functions of
the repository — the scoring module (`calculateCareerPathScore`,
`calculateTransferScore`, `calculateAccuracyRate`, `calculateStreak`) and the
answer matcher (`normalizePlayerName`, `extractLastName`,
`isValidLastNameMatch`, `validatePlayerGuess`) — and proves the specified
properties about them.

Modelling conventions:
* JavaScript numbers are modelled exactly: integer-valued inputs as `Int`,
  fractional intermediate values (the revealed percentage, the accuracy rate)
  as `ℚ`.  `Math.round` is modelled as `⌊x + 1/2⌋` (JS rounds half away from
  zero towards +∞ for positive arguments).
* Strings are Lean `String`s (lists of Unicode scalar values).  The JS
  built-ins used by the matcher (`String.prototype.normalize('NFD')`,
  `toLowerCase`, the regex classes `\s`, `[^a-z0-9\s-]`, `trim`, `split`)
  are modelled character by character; the NFD decomposition table covers the
  Latin-1 / Latin-Extended-A repertoire (identity elsewhere).
* `JSON.parse` on the `aliases` column is modelled by a JSON value parser
  `parseJsonValue : String → Option Json` (strings with the JSON escapes,
  numbers kept as lexemes, arrays, objects, literals; `none` where
  `JSON.parse` throws).  The alias loop is modelled by `jsIterate` and
  `aliasScan`: an array iterates its elements and a string its characters,
  a string element is normalized and compared, and the first non-string
  element — like a non-iterable value or a parse failure — ends the scan the
  way the TypeError caught by the source's `try/catch` does, falling through
  to last-name matching.  A match found before that point is returned first,
  exactly as the source's `return` inside the `try` block precedes the throw.
-/

namespace FootballIQ

/-! ## Scoring: constants and data (src/constants/game.ts, src/types ScoreBreakdown) -/

namespace GAME_CONSTANTS

/-- Maximum number of wrong guesses before game over. -/
def MAX_WRONG_GUESSES : Int := 5

namespace CAREER_PATH_POINTS

/-- Points awarded when guessed in first 20% of clubs shown. -/
def FIRST_20_PERCENT : Int := 3

/-- Points awarded when guessed in first 50% of clubs shown. -/
def FIRST_50_PERCENT : Int := 2

/-- Points awarded when guessed after 50% of clubs shown. -/
def AFTER_50_PERCENT : Int := 1

/-- Minimum score for a correct answer (never goes below this). -/
def MINIMUM_SCORE : Int := 1

end CAREER_PATH_POINTS

namespace TRANSFER_POINTS

/-- Points when no hints revealed. -/
def NO_HINTS : Int := 3

/-- Points when position revealed. -/
def POSITION_REVEALED : Int := 2

/-- Points when both position and nationality revealed. -/
def NATIONALITY_REVEALED : Int := 1

end TRANSFER_POINTS

namespace CAREER_PATH_FULL_POINTS

/-- Points for correct answer. -/
def CORRECT : Int := 1

/-- Points for incorrect answer. -/
def INCORRECT : Int := 0

end CAREER_PATH_FULL_POINTS

end GAME_CONSTANTS

/-- Detailed breakdown of a score calculation (interface `ScoreBreakdown`). -/
structure ScoreBreakdown where
  /-- Base points before penalties. -/
  basePoints : Int
  /-- Penalty points (negative number). -/
  penalties : Int
  /-- Final score after applying penalties. -/
  finalScore : Int
  /-- Human-readable explanation of scoring. -/
  breakdown : String
deriving Repr, DecidableEq

/-! ## Scoring functions (utils/scoring.ts, percentage-tiered version) -/

/-- `calculateCareerPathScore(totalClubs, clubsRevealed, wrongGuesses)`:
tiered base points on the revealed percentage (`clubsRevealed / totalClubs`,
computed exactly in `ℚ`), one point of penalty per wrong guess, final score
floored at `MINIMUM_SCORE`. -/
def calculateCareerPathScore (totalClubs clubsRevealed wrongGuesses : Int) :
    ScoreBreakdown :=
  let percentageRevealed : ℚ := (clubsRevealed : ℚ) / (totalClubs : ℚ)
  let basePoints : Int :=
    if totalClubs = 1 ∨ percentageRevealed ≤ 0.2 then
      GAME_CONSTANTS.CAREER_PATH_POINTS.FIRST_20_PERCENT
    else if percentageRevealed ≤ 0.5 then
      GAME_CONSTANTS.CAREER_PATH_POINTS.FIRST_50_PERCENT
    else
      GAME_CONSTANTS.CAREER_PATH_POINTS.AFTER_50_PERCENT
  let penalties : Int := if wrongGuesses = 0 then 0 else -wrongGuesses
  let rawScore : Int := basePoints + penalties
  let finalScore : Int := max rawScore GAME_CONSTANTS.CAREER_PATH_POINTS.MINIMUM_SCORE
  let guessWord : String := if wrongGuesses = 1 then "guess" else "guesses"
  let isMinimumEnforced : Bool :=
    rawScore < GAME_CONSTANTS.CAREER_PATH_POINTS.MINIMUM_SCORE
  let pointWord : String := if finalScore = 1 then "point" else "points"
  let breakdown : String :=
    if wrongGuesses = 0 then
      toString basePoints ++ " base points - 0 penalties = " ++
        toString finalScore ++ " " ++ pointWord
    else if isMinimumEnforced then
      toString basePoints ++ " base points - " ++ toString wrongGuesses ++
        " wrong " ++ guessWord ++ " = " ++ toString finalScore ++ " " ++
        pointWord ++ " (minimum enforced)"
    else
      toString basePoints ++ " base points - " ++ toString wrongGuesses ++
        " wrong " ++ guessWord ++ " = " ++ toString finalScore ++ " " ++ pointWord
  { basePoints := basePoints, penalties := penalties, finalScore := finalScore,
    breakdown := breakdown }

/-- `calculateCareerPathFullScore(isCorrect)`: 1 point for correct, 0 otherwise. -/
def calculateCareerPathFullScore (isCorrect : Bool) : ScoreBreakdown :=
  let finalScore : Int :=
    if isCorrect then GAME_CONSTANTS.CAREER_PATH_FULL_POINTS.CORRECT
    else GAME_CONSTANTS.CAREER_PATH_FULL_POINTS.INCORRECT
  let breakdown : String :=
    if isCorrect then "1 point (correct)" else "0 points (incorrect)"
  { basePoints := finalScore, penalties := 0, finalScore := finalScore,
    breakdown := breakdown }

/-- Which transfer-mode hints have been shown to the player. -/
structure HintsRevealed where
  position : Bool
  nationality : Bool
deriving Repr, DecidableEq

/-- `calculateTransferScore(hintsRevealed)`: 3 points with no hints, 2 with
exactly one hint revealed, 1 with both (the both-hints tier reads the constant
named `NATIONALITY_REVEALED`). -/
def calculateTransferScore (hintsRevealed : HintsRevealed) : ScoreBreakdown :=
  let result : Int × String :=
    if !hintsRevealed.position && !hintsRevealed.nationality then
      (GAME_CONSTANTS.TRANSFER_POINTS.NO_HINTS, "3 points (no hints)")
    else if hintsRevealed.position && hintsRevealed.nationality then
      (GAME_CONSTANTS.TRANSFER_POINTS.NATIONALITY_REVEALED,
        "1 point (position + nationality revealed)")
    else if hintsRevealed.position then
      (GAME_CONSTANTS.TRANSFER_POINTS.POSITION_REVEALED, "2 points (position revealed)")
    else
      (GAME_CONSTANTS.TRANSFER_POINTS.POSITION_REVEALED, "2 points (nationality revealed)")
  { basePoints := result.1, penalties := 0, finalScore := result.1,
    breakdown := result.2 }

/-- Model of JavaScript `Math.round` on an exact rational: round half
towards positive infinity. -/
def jsRound (x : ℚ) : Int := ⌊x + 1 / 2⌋

/-- `calculateAccuracyRate(previousCorrect, previousTotal, newlyCorrect)`:
percentage of correct answers after the new question, rounded to two decimal
places via `Math.round(rate * 100) / 100`. -/
def calculateAccuracyRate (previousCorrect previousTotal : Int)
    (newlyCorrect : Bool) : ℚ :=
  let newCorrect : Int := previousCorrect + (if newlyCorrect then 1 else 0)
  let newTotal : Int := previousTotal + 1
  if newTotal = 0 then 0
  else
    let accuracyRate : ℚ := ((newCorrect : ℚ) / (newTotal : ℚ)) * 100
    (jsRound (accuracyRate * 100) : ℚ) / 100

/-- `calculateStreak(currentStreak, wasCorrect)`: increment on correct,
reset to 0 on incorrect. -/
def calculateStreak (currentStreak : Int) (wasCorrect : Bool) : Int :=
  if wasCorrect then currentStreak + 1 else 0

/-! ## Answer matching: character-level models of the JS string built-ins -/

/-- The JS regex class `\s` (which is also the `String.prototype.trim`
whitespace set): tab, LF, VT, FF, CR, space, NBSP, ogham space mark, the
U+2000–U+200A spaces, LS, PS, NNBSP, MMSP, ideographic space, and the BOM. -/
def jsWs (c : Char) : Bool :=
  c.toNat = 0x9 || c.toNat = 0xA || c.toNat = 0xB || c.toNat = 0xC ||
  c.toNat = 0xD || c.toNat = 0x20 || c.toNat = 0xA0 || c.toNat = 0x1680 ||
  (0x2000 ≤ c.toNat && c.toNat ≤ 0x200A) ||
  c.toNat = 0x2028 || c.toNat = 0x2029 || c.toNat = 0x202F ||
  c.toNat = 0x205F || c.toNat = 0x3000 || c.toNat = 0xFEFF

/-- The combining diacritical marks block U+0300–U+036F removed by
`.replace(/[̀-ͯ]/g, '')`. -/
def isCombiningMark (c : Char) : Bool :=
  0x300 ≤ c.toNat && c.toNat ≤ 0x36F

/-- Model of `toLowerCase` restricted to the ASCII letters A–Z (0x41–0x5A):
sufficient here because every non-ASCII character is either decomposed into an
ASCII base letter plus combining marks by the NFD step or removed by the
`[^a-z0-9\s-]` filter that follows. -/
def jsToLower (c : Char) : Char :=
  if 0x41 ≤ c.toNat ∧ c.toNat ≤ 0x5A then Char.ofNat (c.toNat + 32) else c

/-- The characters kept by `.replace(/[^a-z0-9\s-]/g, '')`: lowercase ASCII
letters (0x61–0x7A), digits (0x30–0x39), `\s` whitespace, and the hyphen
(0x2D). -/
def keepChar (c : Char) : Bool :=
  (0x61 ≤ c.toNat && c.toNat ≤ 0x7A) || (0x30 ≤ c.toNat && c.toNat ≤ 0x39) ||
  jsWs c || c.toNat = 0x2D

/-- Canonical (NFD) decomposition table for the precomposed Latin-1 and
Latin-Extended-A letters (base letter followed by a combining mark from
U+0300–U+0328); identity on everything else.  Models
`String.prototype.normalize('NFD')` on the Latin repertoire. -/
def nfdTable (c : Char) : List Char :=
  match c with
  | 'À' => ['A', Char.ofNat 0x300]
  | 'Á' => ['A', Char.ofNat 0x301]
  | 'Â' => ['A', Char.ofNat 0x302]
  | 'Ã' => ['A', Char.ofNat 0x303]
  | 'Ä' => ['A', Char.ofNat 0x308]
  | 'Å' => ['A', Char.ofNat 0x30A]
  | 'Ç' => ['C', Char.ofNat 0x327]
  | 'È' => ['E', Char.ofNat 0x300]
  | 'É' => ['E', Char.ofNat 0x301]
  | 'Ê' => ['E', Char.ofNat 0x302]
  | 'Ë' => ['E', Char.ofNat 0x308]
  | 'Ì' => ['I', Char.ofNat 0x300]
  | 'Í' => ['I', Char.ofNat 0x301]
  | 'Î' => ['I', Char.ofNat 0x302]
  | 'Ï' => ['I', Char.ofNat 0x308]
  | 'Ñ' => ['N', Char.ofNat 0x303]
  | 'Ò' => ['O', Char.ofNat 0x300]
  | 'Ó' => ['O', Char.ofNat 0x301]
  | 'Ô' => ['O', Char.ofNat 0x302]
  | 'Õ' => ['O', Char.ofNat 0x303]
  | 'Ö' => ['O', Char.ofNat 0x308]
  | 'Ù' => ['U', Char.ofNat 0x300]
  | 'Ú' => ['U', Char.ofNat 0x301]
  | 'Û' => ['U', Char.ofNat 0x302]
  | 'Ü' => ['U', Char.ofNat 0x308]
  | 'Ý' => ['Y', Char.ofNat 0x301]
  | 'à' => ['a', Char.ofNat 0x300]
  | 'á' => ['a', Char.ofNat 0x301]
  | 'â' => ['a', Char.ofNat 0x302]
  | 'ã' => ['a', Char.ofNat 0x303]
  | 'ä' => ['a', Char.ofNat 0x308]
  | 'å' => ['a', Char.ofNat 0x30A]
  | 'ç' => ['c', Char.ofNat 0x327]
  | 'è' => ['e', Char.ofNat 0x300]
  | 'é' => ['e', Char.ofNat 0x301]
  | 'ê' => ['e', Char.ofNat 0x302]
  | 'ë' => ['e', Char.ofNat 0x308]
  | 'ì' => ['i', Char.ofNat 0x300]
  | 'í' => ['i', Char.ofNat 0x301]
  | 'î' => ['i', Char.ofNat 0x302]
  | 'ï' => ['i', Char.ofNat 0x308]
  | 'ñ' => ['n', Char.ofNat 0x303]
  | 'ò' => ['o', Char.ofNat 0x300]
  | 'ó' => ['o', Char.ofNat 0x301]
  | 'ô' => ['o', Char.ofNat 0x302]
  | 'õ' => ['o', Char.ofNat 0x303]
  | 'ö' => ['o', Char.ofNat 0x308]
  | 'ù' => ['u', Char.ofNat 0x300]
  | 'ú' => ['u', Char.ofNat 0x301]
  | 'û' => ['u', Char.ofNat 0x302]
  | 'ü' => ['u', Char.ofNat 0x308]
  | 'ý' => ['y', Char.ofNat 0x301]
  | 'ÿ' => ['y', Char.ofNat 0x308]
  | 'Ā' => ['A', Char.ofNat 0x304]
  | 'ā' => ['a', Char.ofNat 0x304]
  | 'Ă' => ['A', Char.ofNat 0x306]
  | 'ă' => ['a', Char.ofNat 0x306]
  | 'Ą' => ['A', Char.ofNat 0x328]
  | 'ą' => ['a', Char.ofNat 0x328]
  | 'Ć' => ['C', Char.ofNat 0x301]
  | 'ć' => ['c', Char.ofNat 0x301]
  | 'Č' => ['C', Char.ofNat 0x30C]
  | 'č' => ['c', Char.ofNat 0x30C]
  | 'Ď' => ['D', Char.ofNat 0x30C]
  | 'ď' => ['d', Char.ofNat 0x30C]
  | 'Ē' => ['E', Char.ofNat 0x304]
  | 'ē' => ['e', Char.ofNat 0x304]
  | 'Ė' => ['E', Char.ofNat 0x307]
  | 'ė' => ['e', Char.ofNat 0x307]
  | 'Ę' => ['E', Char.ofNat 0x328]
  | 'ę' => ['e', Char.ofNat 0x328]
  | 'Ě' => ['E', Char.ofNat 0x30C]
  | 'ě' => ['e', Char.ofNat 0x30C]
  | 'Ğ' => ['G', Char.ofNat 0x306]
  | 'ğ' => ['g', Char.ofNat 0x306]
  | 'Ī' => ['I', Char.ofNat 0x304]
  | 'ī' => ['i', Char.ofNat 0x304]
  | 'Ń' => ['N', Char.ofNat 0x301]
  | 'ń' => ['n', Char.ofNat 0x301]
  | 'Ň' => ['N', Char.ofNat 0x30C]
  | 'ň' => ['n', Char.ofNat 0x30C]
  | 'Ō' => ['O', Char.ofNat 0x304]
  | 'ō' => ['o', Char.ofNat 0x304]
  | 'Ő' => ['O', Char.ofNat 0x30B]
  | 'ő' => ['o', Char.ofNat 0x30B]
  | 'Ŕ' => ['R', Char.ofNat 0x301]
  | 'ŕ' => ['r', Char.ofNat 0x301]
  | 'Ř' => ['R', Char.ofNat 0x30C]
  | 'ř' => ['r', Char.ofNat 0x30C]
  | 'Ś' => ['S', Char.ofNat 0x301]
  | 'ś' => ['s', Char.ofNat 0x301]
  | 'Ş' => ['S', Char.ofNat 0x327]
  | 'ş' => ['s', Char.ofNat 0x327]
  | 'Š' => ['S', Char.ofNat 0x30C]
  | 'š' => ['s', Char.ofNat 0x30C]
  | 'Ţ' => ['T', Char.ofNat 0x327]
  | 'ţ' => ['t', Char.ofNat 0x327]
  | 'Ť' => ['T', Char.ofNat 0x30C]
  | 'ť' => ['t', Char.ofNat 0x30C]
  | 'Ū' => ['U', Char.ofNat 0x304]
  | 'ū' => ['u', Char.ofNat 0x304]
  | 'Ů' => ['U', Char.ofNat 0x30A]
  | 'ů' => ['u', Char.ofNat 0x30A]
  | 'Ű' => ['U', Char.ofNat 0x30B]
  | 'ű' => ['u', Char.ofNat 0x30B]
  | 'Ź' => ['Z', Char.ofNat 0x301]
  | 'ź' => ['z', Char.ofNat 0x301]
  | 'Ż' => ['Z', Char.ofNat 0x307]
  | 'ż' => ['z', Char.ofNat 0x307]
  | 'Ž' => ['Z', Char.ofNat 0x30C]
  | 'ž' => ['z', Char.ofNat 0x30C]
  | _ => [c]

/-- NFD decomposition of one character: identity below U+00C0 (no Basic-Latin
or Latin-1-punctuation character decomposes), table lookup above. -/
def nfdDecompose (c : Char) : List Char :=
  if c.toNat < 0xC0 then [c] else nfdTable c

/-- Model of `.replace(/\s+/g, ' ')`: every maximal run of `\s` characters
becomes a single space. -/
def collapseWs : List Char → List Char
  | [] => []
  | [c] => [if jsWs c then ' ' else c]
  | a :: b :: rest =>
    if jsWs a && jsWs b then collapseWs (b :: rest)
    else (if jsWs a then ' ' else a) :: collapseWs (b :: rest)

/-- Model of `String.prototype.trim`: drop whitespace from both ends
(trailing first, via the reversal, then leading). -/
def trimWs (l : List Char) : List Char :=
  List.dropWhile jsWs ((List.dropWhile jsWs l.reverse).reverse)

/-- The `normalizePlayerName` pipeline on a list of characters: NFD, strip
combining marks, lowercase, remove everything but `[a-z0-9\s-]`, collapse
whitespace runs to single spaces, trim. -/
def normalizeChars (l : List Char) : List Char :=
  trimWs (collapseWs ((((l.flatMap nfdDecompose).filter
    (fun c => !isCombiningMark c)).map jsToLower).filter keepChar))

/-- `normalizePlayerName(name)`: canonical comparison form of a name. -/
def normalizePlayerName (s : String) : String :=
  String.mk (normalizeChars s.data)

/-- `extractLastName(fullName)`: the last element of
`fullName.trim().split(/\s+/)`, i.e. the trailing run of non-whitespace
characters of the trimmed name (empty when the trimmed name is empty). -/
def extractLastName (fullName : String) : String :=
  let trimmed := trimWs fullName.data
  if trimmed.isEmpty then ""
  else String.mk (trimmed.reverse.takeWhile (fun c => !jsWs c)).reverse

/-- `isValidLastNameMatch(lastName)`: last names must be longer than 3
characters (after trimming) to be usable for last-name matching. -/
def isValidLastNameMatch (lastName : String) : Bool :=
  decide (3 < (trimWs lastName.data).length)

/-! ## JSON alias parsing (model of `JSON.parse` on the aliases column) -/

/-- The whitespace JSON allows between tokens. -/
def isJsonWs (c : Char) : Bool :=
  c = ' ' || c = '\t' || c = '\n' || c = '\r'

/-- Value of one hexadecimal digit, `none` for a non-hex character. -/
def hexVal (c : Char) : Option Nat :=
  if 0x30 ≤ c.toNat ∧ c.toNat ≤ 0x39 then some (c.toNat - 0x30)
  else if 0x41 ≤ c.toNat ∧ c.toNat ≤ 0x46 then some (c.toNat - 0x41 + 10)
  else if 0x61 ≤ c.toNat ∧ c.toNat ≤ 0x66 then some (c.toNat - 0x61 + 10)
  else none

/-- Prepend a character to the string of a partial parse result. -/
def strCons (c : Char) : Option (String × List Char) → Option (String × List Char) :=
  Option.map (fun p => (String.mk (c :: p.1.data), p.2))

/-- Parse the body of a JSON string literal (the opening quote already
consumed): plain characters, the JSON escapes, and `\uXXXX`; returns the
decoded string and the remaining input, `none` on malformed input
(unterminated literal, bad escape, raw control character). -/
def parseJsonString : List Char → Option (String × List Char)
  | [] => none
  | c :: rest =>
    if c = '"' then some ("", rest)
    else if c = '\\' then
      match rest with
      | [] => none
      | e :: rest2 =>
        if e = '"' then strCons '"' (parseJsonString rest2)
        else if e = '\\' then strCons '\\' (parseJsonString rest2)
        else if e = '/' then strCons '/' (parseJsonString rest2)
        else if e = 'b' then strCons (Char.ofNat 0x8) (parseJsonString rest2)
        else if e = 'f' then strCons (Char.ofNat 0xC) (parseJsonString rest2)
        else if e = 'n' then strCons '\n' (parseJsonString rest2)
        else if e = 'r' then strCons '\r' (parseJsonString rest2)
        else if e = 't' then strCons '\t' (parseJsonString rest2)
        else if e = 'u' then
          match rest2 with
          | h1 :: h2 :: h3 :: h4 :: rest3 =>
            match hexVal h1, hexVal h2, hexVal h3, hexVal h4 with
            | some a, some b, some c2, some d =>
              strCons (Char.ofNat (((a * 16 + b) * 16 + c2) * 16 + d))
                (parseJsonString rest3)
            | _, _, _, _ => none
          | _ => none
        else none
    else if c.toNat < 0x20 then none
    else strCons c (parseJsonString rest)

/-- A JSON value, as produced by `JSON.parse`.  A number keeps its lexeme
only: the matcher never inspects a numeric value (any non-string element
aborts the alias scan), so nothing more is needed. -/
inductive Json where
  | null
  | bool (b : Bool)
  | num (lexeme : String)
  | str (s : String)
  | arr (elems : List Json)
  | obj (fields : List (String × Json))
deriving Repr

/-- A decimal digit. -/
def digitB (c : Char) : Bool := 0x30 ≤ c.toNat && c.toNat ≤ 0x39

/-- The fraction part of a JSON number (`'.' digits`), when present; returns
the consumed characters and the rest. -/
def parseNumFrac : List Char → Option (List Char × List Char)
  | '.' :: r =>
    match r.takeWhile digitB with
    | [] => none
    | ds => some ('.' :: ds, r.dropWhile digitB)
  | l => some ([], l)

/-- The exponent part of a JSON number (`(e|E) sign? digits`), when present. -/
def parseNumExp : List Char → Option (List Char × List Char)
  | [] => some ([], [])
  | e :: r =>
    if e = 'e' || e = 'E' then
      let sg : List Char × List Char :=
        match r with
        | '+' :: rr => (['+'], rr)
        | '-' :: rr => (['-'], rr)
        | _ => ([], r)
      match sg.2.takeWhile digitB with
      | [] => none
      | ds => some (e :: (sg.1 ++ ds), sg.2.dropWhile digitB)
    else some ([], e :: r)

/-- A JSON number literal: optional minus, integer part with no leading zero,
optional fraction and exponent. -/
def parseNum (l : List Char) : Option (Json × List Char) :=
  let sgn : List Char × List Char :=
    match l with
    | '-' :: r => (['-'], r)
    | _ => ([], l)
  match sgn.2 with
  | c :: r =>
    if digitB c then
      if c = '0' && (match r with | d :: _ => digitB d | [] => false) then none
      else
        match parseNumFrac (r.dropWhile digitB) with
        | none => none
        | some (fr, r2) =>
          match parseNumExp r2 with
          | none => none
          | some (ex, r3) =>
            some (Json.num (String.mk
              (sgn.1 ++ c :: (r.takeWhile digitB ++ (fr ++ ex)))), r3)
    else none
  | [] => none

mutual

/-- Parse one JSON value (no leading whitespace); `fuel` bounds the number of
parsing steps — any fuel above twice the input length is enough, since every
step consumes at least one character per two fuel units. -/
def parseVal : Nat → List Char → Option (Json × List Char)
  | 0, _ => none
  | fuel + 1, l =>
    match l with
    | '"' :: body => (parseJsonString body).map (fun p => (Json.str p.1, p.2))
    | '[' :: rest =>
      match rest.dropWhile isJsonWs with
      | ']' :: r2 => some (Json.arr [], r2)
      | l2 => (parseElems fuel l2).map (fun p => (Json.arr p.1, p.2))
    | '{' :: rest =>
      match rest.dropWhile isJsonWs with
      | '}' :: r2 => some (Json.obj [], r2)
      | l2 => (parseFields fuel l2).map (fun p => (Json.obj p.1, p.2))
    | 't' :: 'r' :: 'u' :: 'e' :: r => some (Json.bool true, r)
    | 'f' :: 'a' :: 'l' :: 's' :: 'e' :: r => some (Json.bool false, r)
    | 'n' :: 'u' :: 'l' :: 'l' :: r => some (Json.null, r)
    | l => parseNum l

/-- Parse the elements of a non-empty JSON array, starting at the first
element (no leading whitespace). -/
def parseElems : Nat → List Char → Option (List Json × List Char)
  | 0, _ => none
  | fuel + 1, l =>
    match parseVal fuel l with
    | none => none
    | some (v, r) =>
      match r.dropWhile isJsonWs with
      | ']' :: r2 => some ([v], r2)
      | ',' :: r2 =>
        (parseElems fuel (r2.dropWhile isJsonWs)).map (fun p => (v :: p.1, p.2))
      | _ => none

/-- Parse the fields of a non-empty JSON object, starting at the first key
(no leading whitespace). -/
def parseFields : Nat → List Char → Option (List (String × Json) × List Char)
  | 0, _ => none
  | fuel + 1, l =>
    match l with
    | '"' :: body =>
      match parseJsonString body with
      | none => none
      | some (k, r) =>
        match r.dropWhile isJsonWs with
        | ':' :: r2 =>
          match parseVal fuel (r2.dropWhile isJsonWs) with
          | none => none
          | some (v, r3) =>
            match r3.dropWhile isJsonWs with
            | '}' :: r4 => some ([(k, v)], r4)
            | ',' :: r4 =>
              (parseFields fuel (r4.dropWhile isJsonWs)).map
                (fun p => ((k, v) :: p.1, p.2))
            | _ => none
        | _ => none
    | _ => none

end

/-- Model of `JSON.parse`: one JSON value surrounded by whitespace only;
`none` on malformed input (where `JSON.parse` throws a SyntaxError). -/
def parseJsonValue (s : String) : Option Json :=
  match parseVal (2 * s.data.length + 2) (s.data.dropWhile isJsonWs) with
  | some (v, r) => if (r.dropWhile isJsonWs).isEmpty then some v else none
  | none => none

/-- The sequence `for...of` iterates over a parsed aliases value: an array
yields its elements, a string yields its characters (as one-character
strings); every other JSON value is not iterable and the loop header itself
throws the TypeError that the surrounding `try/catch` swallows. -/
def jsIterate : Json → Option (List Json)
  | Json.arr es => some es
  | Json.str s => some (s.data.map (fun c => Json.str (String.mk [c])))
  | _ => none

/-- Decode a list of parsed elements as Lean strings, `none` as soon as one
element is not a JSON string. -/
def allStrings : List Json → Option (List String)
  | [] => some []
  | Json.str a :: rest => (allStrings rest).map (fun L => a :: L)
  | _ :: _ => none

/-- The aliases text read at the declared type `string[]`: a JSON array whose
elements are all strings, `none` on anything else. -/
def parseStringArray (s : String) : Option (List String) :=
  match parseJsonValue s with
  | some (Json.arr es) => allStrings es
  | _ => none

/-! ## The answer matcher (utils/answerMatching.ts) -/

/-- The four matching strategies of `AnswerValidation.matchType`. -/
inductive MatchType where
  | exact
  | full_name
  | alias
  | last_name
deriving Repr, DecidableEq

/-- Result of validating a player name guess (interface `AnswerValidation`);
`acceptedAnswer` and `matchType` are optional fields, absent (`none`) when the
guess is not correct. -/
structure AnswerValidation where
  isCorrect : Bool
  acceptedAnswer : Option String := none
  matchType : Option MatchType := none
deriving Repr, DecidableEq

/-- The fields of the database `Player` row read by the matcher: the common
name, the nullable full legal name, and the nullable `aliases` column holding
a JSON array of alternative names. -/
structure Player where
  name : String
  full_name : Option String := none
  aliases : Option String := none
deriving Repr, DecidableEq

/-- Step 2 of the matcher: the full name, when present and matching the
normalized guess. -/
def fullNameHit (normalizedGuess : String) (player : Player) : Option String :=
  match player.full_name with
  | some fn =>
    if normalizedGuess == normalizePlayerName fn then some fn else none
  | none => none

/-- One pass of the alias `for...of` loop over the parsed elements: a string
element is normalized and compared with the guess (first match wins and is
returned in its original form); the first non-string element makes
`normalizePlayerName(alias)` throw the TypeError that the `try/catch`
swallows, so the scan stops there and nothing later is reached. -/
def aliasScan (normalizedGuess : String) : List Json → Option String
  | [] => none
  | Json.str a :: rest =>
    if normalizedGuess == normalizePlayerName a then some a
    else aliasScan normalizedGuess rest
  | _ :: _ => none

/-- Step 3 of the matcher, the `try/catch` block of the source: parse the
aliases column with `JSON.parse`, iterate the result, and scan for the first
matching string element; `none` (fall through to last-name matching) when the
column is absent, the text is unparseable, the value is not iterable, a
non-string element is reached before a match, or the scan ends without a
match — every one of these is the same caught-exception / no-return path in
the source. -/
def aliasHit (normalizedGuess : String) (player : Player) : Option String :=
  match player.aliases with
  | some raw =>
    match parseJsonValue raw with
    | some v =>
      match jsIterate v with
      | some elems => aliasScan normalizedGuess elems
      | none => none
    | none => none
  | none => none

/-- `validatePlayerGuess(guess, player)`: empty-guess early return, then
exact name, full name, aliases (in stored order), and last-name fallback
(only for last names longer than 3 characters). -/
def validatePlayerGuess (guess : String) (player : Player) : AnswerValidation :=
  let normalizedGuess := normalizePlayerName guess
  if normalizedGuess = "" then { isCorrect := false }
  else if normalizedGuess = normalizePlayerName player.name then
    { isCorrect := true, acceptedAnswer := some player.name,
      matchType := some MatchType.exact }
  else
    match fullNameHit normalizedGuess player with
    | some fn =>
      { isCorrect := true, acceptedAnswer := some fn,
        matchType := some MatchType.full_name }
    | none =>
      match aliasHit normalizedGuess player with
      | some a =>
        { isCorrect := true, acceptedAnswer := some a,
          matchType := some MatchType.alias }
      | none =>
        let lastName := extractLastName player.name
        if isValidLastNameMatch lastName &&
            (normalizedGuess == normalizePlayerName lastName) then
          { isCorrect := true, acceptedAnswer := some lastName,
            matchType := some MatchType.last_name }
        else
          { isCorrect := false }

/-- Scanning a list of parsed elements that are all strings is the plain
first-match search of the source loop on well-formed alias data. -/
theorem aliasScan_map_str (g : String) (L : List String) :
    aliasScan g (L.map Json.str) =
      L.find? (fun al => g == normalizePlayerName al) := by
  induction L with
  | nil => rfl
  | cons a tl ih =>
    by_cases h : (g == normalizePlayerName a) = true
    · simp [aliasScan, List.find?_cons, h]
    · simp [aliasScan, List.find?_cons, h, ih]

/-- Decoded elements are exactly the string constructors of the decoding. -/
theorem allStrings_eq : ∀ {es : List Json} {L : List String},
    allStrings es = some L → es = L.map Json.str := by
  intro es
  induction es with
  | nil =>
    intro L h
    simp [allStrings] at h
    simp [← h]
  | cons e tl ih =>
    intro L h
    cases e with
    | null => simp [allStrings] at h
    | bool b => simp [allStrings] at h
    | num s => simp [allStrings] at h
    | arr es2 => simp [allStrings] at h
    | obj fs => simp [allStrings] at h
    | str a =>
      simp only [allStrings] at h
      cases htl : allStrings tl with
      | none => rw [htl] at h; simp at h
      | some L2 =>
        rw [htl] at h
        simp at h
        rw [← h, List.map_cons, ih htl]

/-- A successful `string[]` read comes from a parsed JSON array whose
elements are the strings of the result. -/
theorem parseStringArray_arr {raw : String} {L : List String}
    (h : parseStringArray raw = some L) :
    ∃ es, parseJsonValue raw = some (Json.arr es) ∧ es = L.map Json.str := by
  unfold parseStringArray at h
  cases hjv : parseJsonValue raw with
  | none => rw [hjv] at h; simp at h
  | some v =>
    rw [hjv] at h
    cases v with
    | null => simp at h
    | bool b => simp at h
    | num s => simp at h
    | str s => simp at h
    | obj fs => simp at h
    | arr es => exact ⟨es, rfl, allStrings_eq h⟩

/-! ## Claims about the scoring functions -/


/-- C1: for totalMilestones >= 1, 1 <= revealedCount <= totalMilestones and
wrongGuesses >= 0, the progressive scorer awards basePoints 3 when
totalMilestones = 1 or the revealed fraction is at most 0.2, 2 when it is at
most 0.5, and 1 otherwise; penalties are -wrongGuesses (0 when there are no
wrong guesses); finalScore is max(basePoints + penalties, 1); and the four
boundary examples score(10,2,0)=3, score(10,5,0)=2, score(10,6,0)=1,
score(10,2,5)=1 hold. -/
theorem calculateCareerPathScore_spec (n k w : Int)
    (hn : 1 ≤ n) (hk1 : 1 ≤ k) (hkn : k ≤ n) (hw : 0 ≤ w) :
    (calculateCareerPathScore n k w).basePoints =
      (if n = 1 ∨ (k : ℚ) / (n : ℚ) ≤ 0.2 then 3
       else if (k : ℚ) / (n : ℚ) ≤ 0.5 then 2 else 1) ∧
    (calculateCareerPathScore n k w).penalties = -w ∧
    (w = 0 → (calculateCareerPathScore n k w).penalties = 0) ∧
    (calculateCareerPathScore n k w).finalScore =
      max ((calculateCareerPathScore n k w).basePoints +
        (calculateCareerPathScore n k w).penalties) 1 ∧
    (calculateCareerPathScore 10 2 0).finalScore = 3 ∧
    (calculateCareerPathScore 10 5 0).finalScore = 2 ∧
    (calculateCareerPathScore 10 6 0).finalScore = 1 ∧
    (calculateCareerPathScore 10 2 5).finalScore = 1 := by
  refine ⟨?_, ?_, ?_, ?_, ?_, ?_, ?_, ?_⟩
  · rfl
  · rcases eq_or_ne w 0 with h | h <;>
      simp [calculateCareerPathScore, h]
  · intro h
    simp [calculateCareerPathScore, h]
  · rcases eq_or_ne w 0 with h | h <;>
      simp [calculateCareerPathScore, h,
        GAME_CONSTANTS.CAREER_PATH_POINTS.MINIMUM_SCORE]
  · norm_num [calculateCareerPathScore,
      GAME_CONSTANTS.CAREER_PATH_POINTS.FIRST_20_PERCENT,
      GAME_CONSTANTS.CAREER_PATH_POINTS.MINIMUM_SCORE]
  · norm_num [calculateCareerPathScore,
      GAME_CONSTANTS.CAREER_PATH_POINTS.FIRST_20_PERCENT,
      GAME_CONSTANTS.CAREER_PATH_POINTS.FIRST_50_PERCENT,
      GAME_CONSTANTS.CAREER_PATH_POINTS.MINIMUM_SCORE]
  · norm_num [calculateCareerPathScore,
      GAME_CONSTANTS.CAREER_PATH_POINTS.FIRST_20_PERCENT,
      GAME_CONSTANTS.CAREER_PATH_POINTS.FIRST_50_PERCENT,
      GAME_CONSTANTS.CAREER_PATH_POINTS.AFTER_50_PERCENT,
      GAME_CONSTANTS.CAREER_PATH_POINTS.MINIMUM_SCORE]
  · norm_num [calculateCareerPathScore,
      GAME_CONSTANTS.CAREER_PATH_POINTS.FIRST_20_PERCENT,
      GAME_CONSTANTS.CAREER_PATH_POINTS.MINIMUM_SCORE]

/-- Witness for C1 at the concrete input (10, 2, 0). -/
theorem calculateCareerPathScore_spec_witness :
    (calculateCareerPathScore 10 2 0).finalScore =
      max ((calculateCareerPathScore 10 2 0).basePoints +
        (calculateCareerPathScore 10 2 0).penalties) 1 :=
  (calculateCareerPathScore_spec 10 2 0 (by decide) (by decide) (by decide)
    (by decide)).2.2.2.1

/-- C3: the transfer scorer awards by hint count, not hint identity:
3 with no hints, 2 with exactly one hint (the same value for position alone
and nationality alone), 1 with both, and the score is monotonically
non-increasing in the number of revealed hints. -/
theorem calculateTransferScore_spec :
    (calculateTransferScore ⟨false, false⟩).finalScore = 3 ∧
    (calculateTransferScore ⟨true, false⟩).finalScore = 2 ∧
    (calculateTransferScore ⟨false, true⟩).finalScore = 2 ∧
    (calculateTransferScore ⟨true, true⟩).finalScore = 1 ∧
    (calculateTransferScore ⟨true, false⟩).finalScore =
      (calculateTransferScore ⟨false, true⟩).finalScore ∧
    (calculateTransferScore ⟨true, true⟩).finalScore ≤
      (calculateTransferScore ⟨true, false⟩).finalScore ∧
    (calculateTransferScore ⟨false, true⟩).finalScore ≤
      (calculateTransferScore ⟨false, false⟩).finalScore ∧
    (calculateTransferScore ⟨true, true⟩).finalScore ≤
      (calculateTransferScore ⟨false, true⟩).finalScore := by decide

/-- C6 counterexample: at totalMilestones = 1 and revealedCount = 2 (an
out-of-range input in the claim's scope) the scorer returns basePoints 3, not
1, because the single-milestone special case short-circuits the percentage
test. -/
theorem calculateCareerPathScore_overrun_counterexample :
    (calculateCareerPathScore 1 2 0).basePoints = 3 ∧
    (calculateCareerPathScore 1 2 0).basePoints ≠ 1 := by
  norm_num [calculateCareerPathScore,
    GAME_CONSTANTS.CAREER_PATH_POINTS.FIRST_20_PERCENT]

/-- C6 (amended): for every out-of-range input with revealedCount >
totalMilestones and totalMilestones >= 2, the scorer tolerates the input and
returns basePoints 1 (the after-50% tier). -/
theorem calculateCareerPathScore_overrun (n k w : Int)
    (hn : 2 ≤ n) (hk : n < k) :
    (calculateCareerPathScore n k w).basePoints = 1 := by
  have hn0 : (0 : ℚ) < (n : ℚ) := by
    have : (0 : Int) < n := by omega
    exact_mod_cast this
  have hklt : (n : ℚ) < (k : ℚ) := by exact_mod_cast hk
  have h2 : ¬ ((k : ℚ) / (n : ℚ) ≤ 0.5) := by
    rw [not_le, lt_div_iff₀ hn0]; nlinarith
  have h1 : ¬ ((k : ℚ) / (n : ℚ) ≤ 0.2) := by
    rw [not_le, lt_div_iff₀ hn0]; nlinarith
  have hne : ¬ (n = 1) := by omega
  simp [calculateCareerPathScore, hne, h1, h2,
    GAME_CONSTANTS.CAREER_PATH_POINTS.AFTER_50_PERCENT]

/-- Witness for the amended C6 at the concrete input (2, 3, 0). -/
theorem calculateCareerPathScore_overrun_witness :
    (calculateCareerPathScore 2 3 0).basePoints = 1 :=
  calculateCareerPathScore_overrun 2 3 0 (by decide) (by decide)

/-- C9: calculateAccuracyRate returns
(previousCorrect + (newlyCorrect ? 1 : 0)) / (previousTotal + 1) * 100
rounded to two decimal places; in particular (0,0,true) gives 100 and
(5,10,false) gives 45.45. -/
theorem calculateAccuracyRate_spec (pc pt : Int) (b : Bool)
    (hpc : 0 ≤ pc) (hpt : 0 ≤ pt) :
    calculateAccuracyRate pc pt b =
      (jsRound ((((pc + (if b then 1 else 0) : Int) : ℚ) /
        ((pt + 1 : Int) : ℚ)) * 100 * 100) : ℚ) / 100 ∧
    calculateAccuracyRate 0 0 true = 100 ∧
    calculateAccuracyRate 5 10 false = 45.45 := by
  refine ⟨?_, ?_, ?_⟩
  · have h : ¬ (pt + 1 = 0) := by omega
    simp [calculateAccuracyRate, h]
  · norm_num [calculateAccuracyRate, jsRound]
  · norm_num [calculateAccuracyRate, jsRound]

/-- Witness for C9 at the concrete input (5, 10, false). -/
theorem calculateAccuracyRate_spec_witness :
    calculateAccuracyRate 5 10 false =
      (jsRound (((((5 : Int) + (if false then 1 else 0) : Int) : ℚ) /
        (((10 : Int) + 1 : Int) : ℚ)) * 100 * 100) : ℚ) / 100 :=
  (calculateAccuracyRate_spec 5 10 false (by decide) (by decide)).1

/-! ## Claims about the answer matcher -/

/-- C10: a guess whose normalized form is empty returns isCorrect false
with no matchType and no acceptedAnswer for every target, including targets
whose own canonical name normalizes to the empty string. -/
theorem validatePlayerGuess_emptyGuess (g : String) (t : Player)
    (h : normalizePlayerName g = "") :
    validatePlayerGuess g t = { isCorrect := false } := by
  simp [validatePlayerGuess, h]

/-- Witness for C10: guess and target name both normalize to empty, yet
the result is not a match. -/
theorem validatePlayerGuess_emptyGuess_witness :
    validatePlayerGuess "???" { name := "???" } = { isCorrect := false } :=
  validatePlayerGuess_emptyGuess "???" { name := "???" } (by decide)

/-- C8: the matchType and acceptedAnswer fields of a validation result are
present exactly when isCorrect is true. -/
theorem validatePlayerGuess_fields (g : String) (t : Player) :
    ((validatePlayerGuess g t).isCorrect = true ↔
      ((validatePlayerGuess g t).matchType).isSome = true) ∧
    ((validatePlayerGuess g t).isCorrect = true ↔
      ((validatePlayerGuess g t).acceptedAnswer).isSome = true) := by
  by_cases h0 : normalizePlayerName g = ""
  · simp [validatePlayerGuess, h0]
  · by_cases h1 : normalizePlayerName g = normalizePlayerName t.name
    · have h0' : ¬ (normalizePlayerName t.name = "") := h1 ▸ h0
      simp [validatePlayerGuess, h0, h1, h0']
    · cases hf : fullNameHit (normalizePlayerName g) t with
      | some fn => simp [validatePlayerGuess, h0, h1, hf]
      | none =>
        cases ha : aliasHit (normalizePlayerName g) t with
        | some a => simp [validatePlayerGuess, h0, h1, hf, ha]
        | none =>
          by_cases hl : (isValidLastNameMatch (extractLastName t.name) &&
              (normalizePlayerName g ==
                normalizePlayerName (extractLastName t.name))) = true
          · simp [validatePlayerGuess, h0, h1, hf, ha, hl]
          · simp [validatePlayerGuess, h0, h1, hf, ha,
              Bool.not_eq_true _ ▸ hl]


/-- C4: the last-name fallback fires only when the extracted last name has
trimmed length strictly greater than 3: any last_name match implies that
bound; the guess 'Li' against name 'Sun Li' is not correct; and a single-word
name extracts to itself and is excluded from the fallback when it has at most
3 characters ('Edu'). -/
theorem validatePlayerGuess_lastNameGuard (g : String) (t : Player) :
    ((validatePlayerGuess g t).matchType = some MatchType.last_name →
      3 < (trimWs (extractLastName t.name).data).length) ∧
    validatePlayerGuess "Li" { name := "Sun Li" } = { isCorrect := false } ∧
    extractLastName "Sun Li" = "Li" ∧
    extractLastName "Edu" = "Edu" ∧
    isValidLastNameMatch "Edu" = false := by
  refine ⟨?_, by decide, by decide, by decide, by decide⟩
  intro h
  by_cases h0 : normalizePlayerName g = ""
  · simp [validatePlayerGuess, h0] at h
  · by_cases h1 : normalizePlayerName g = normalizePlayerName t.name
    · have h0' : ¬ (normalizePlayerName t.name = "") := h1 ▸ h0
      simp [validatePlayerGuess, h0, h1, h0'] at h
    · cases hf : fullNameHit (normalizePlayerName g) t with
      | some fn => simp [validatePlayerGuess, h0, h1, hf] at h
      | none =>
        cases ha : aliasHit (normalizePlayerName g) t with
        | some a => simp [validatePlayerGuess, h0, h1, hf, ha] at h
        | none =>
          by_cases hl : (isValidLastNameMatch (extractLastName t.name) &&
              (normalizePlayerName g ==
                normalizePlayerName (extractLastName t.name))) = true
          · have hv := ((Bool.and_eq_true _ _).mp hl).1
            simpa [isValidLastNameMatch] using hv
          · simp [validatePlayerGuess, h0, h1, hf, ha, hl] at h

/-- Witness for C4: a genuine last_name match ('Ronaldo' against
'Cristiano Ronaldo') has a last name longer than 3 characters. -/
theorem validatePlayerGuess_lastNameGuard_witness :
    3 < (trimWs (extractLastName "Cristiano Ronaldo").data).length :=
  (validatePlayerGuess_lastNameGuard "Ronaldo"
    { name := "Cristiano Ronaldo" }).1 (by decide)

/-- C5 counterexample: the aliases text '["Ron", 5]' is valid JSON but not
parseable as a JSON array of strings, the guess 'Ron' does not match the last
name 'Quintero' (nor anything earlier) — yet the program accepts it, because
the loop alias-matches the string element "Ron" before the TypeError on 5 is
raised; alias matching is not skipped and the guess does not return
isCorrect false. -/
theorem validatePlayerGuess_malformedAliases_counterexample :
    parseStringArray "[\"Ron\", 5]" = none ∧
    normalizePlayerName "Ron" ≠
      normalizePlayerName (extractLastName "Xavier Quintero") ∧
    validatePlayerGuess "Ron"
        { name := "Xavier Quintero", aliases := some "[\"Ron\", 5]" } =
      { isCorrect := true, acceptedAnswer := some "Ron",
        matchType := some MatchType.alias } := by decide

/-- C5 (amended): validation never fails on malformed aliases; whenever the
alias stage produces no accepted alias — the column unparseable as JSON, the
parsed value not iterable, or the scan aborted by a non-string element — the
call behaves exactly as if aliases were absent, so a guess matching the valid
last name is still accepted (aliases 'not json') and any other guess returns
isCorrect false; but a guess matching a string element located before the
first non-string element is still accepted as an alias ('Ron' against
aliases '["Ron", 5]'). -/
theorem validatePlayerGuess_malformedAliases (g : String) (t : Player) :
    (aliasHit (normalizePlayerName g) t = none →
      validatePlayerGuess g t =
        validatePlayerGuess g { t with aliases := none }) ∧
    (∀ raw, t.aliases = some raw → parseJsonValue raw = none →
      aliasHit (normalizePlayerName g) t = none) ∧
    (∀ raw v, t.aliases = some raw → parseJsonValue raw = some v →
      jsIterate v = none → aliasHit (normalizePlayerName g) t = none) ∧
    validatePlayerGuess "Ronaldo"
        { name := "Cristiano Ronaldo", aliases := some "not json" } =
      { isCorrect := true, acceptedAnswer := some "Ronaldo",
        matchType := some MatchType.last_name } ∧
    validatePlayerGuess "Messi"
        { name := "Cristiano Ronaldo", aliases := some "not json" } =
      { isCorrect := false } ∧
    validatePlayerGuess "Ron"
        { name := "Xavier Quintero", aliases := some "[\"Ron\", 5]" } =
      { isCorrect := true, acceptedAnswer := some "Ron",
        matchType := some MatchType.alias } := by
  refine ⟨?_, ?_, ?_, by decide, by decide, by decide⟩
  · intro hA
    have hA' : aliasHit (normalizePlayerName g) { t with aliases := none } =
        none := by simp [aliasHit]
    have hF : fullNameHit (normalizePlayerName g) { t with aliases := none } =
        fullNameHit (normalizePlayerName g) t := by
      simp [fullNameHit]
    simp [validatePlayerGuess, hA, hA', hF]
  · intro raw hra hbad
    simp [aliasHit, hra, hbad]
  · intro raw v hra hv hit
    simp [aliasHit, hra, hv, hit]

/-- Witness for C5 with the unparseable aliases text 'not json'. -/
theorem validatePlayerGuess_malformedAliases_witness :
    validatePlayerGuess "Ronaldo"
        { name := "Cristiano Ronaldo", aliases := some "not json" } =
      validatePlayerGuess "Ronaldo"
        { name := "Cristiano Ronaldo", aliases := none } :=
  (validatePlayerGuess_malformedAliases "Ronaldo"
    { name := "Cristiano Ronaldo", aliases := some "not json" }).1 (by decide)

/-- C2 counterexample: for the target named '???' (whose name normalizes
to the empty string) the self-guess does not produce an exact match - the
empty-guess early return fires first. -/
theorem validatePlayerGuess_selfExact_counterexample :
    (validatePlayerGuess "???" { name := "???" }).matchType ≠
      some MatchType.exact := by decide

/-- C2 (amended): the matcher tries its strategies in strict priority
order - empty normalized guess fails immediately, then exact canonical-name
match, then full-name match when present, then the first matching stored
alias (accepted in its original form), then the last-name fallback - and for
every target whose canonical name has a nonempty normalized form the
self-guess matches with matchType exact. -/
theorem validatePlayerGuess_priority (g : String) (t : Player) :
    (normalizePlayerName g = "" →
      validatePlayerGuess g t = { isCorrect := false }) ∧
    (normalizePlayerName g ≠ "" →
      normalizePlayerName g = normalizePlayerName t.name →
      validatePlayerGuess g t =
        { isCorrect := true, acceptedAnswer := some t.name,
          matchType := some MatchType.exact }) ∧
    (∀ fn, t.full_name = some fn →
      normalizePlayerName g ≠ "" →
      normalizePlayerName g ≠ normalizePlayerName t.name →
      normalizePlayerName g = normalizePlayerName fn →
      validatePlayerGuess g t =
        { isCorrect := true, acceptedAnswer := some fn,
          matchType := some MatchType.full_name }) ∧
    (∀ raw L a, t.aliases = some raw → parseStringArray raw = some L →
      normalizePlayerName g ≠ "" →
      normalizePlayerName g ≠ normalizePlayerName t.name →
      fullNameHit (normalizePlayerName g) t = none →
      L.find? (fun al => normalizePlayerName g == normalizePlayerName al) =
        some a →
      validatePlayerGuess g t =
        { isCorrect := true, acceptedAnswer := some a,
          matchType := some MatchType.alias }) ∧
    (normalizePlayerName g ≠ "" →
      normalizePlayerName g ≠ normalizePlayerName t.name →
      fullNameHit (normalizePlayerName g) t = none →
      aliasHit (normalizePlayerName g) t = none →
      validatePlayerGuess g t =
        (if isValidLastNameMatch (extractLastName t.name) &&
            (normalizePlayerName g ==
              normalizePlayerName (extractLastName t.name)) then
          { isCorrect := true, acceptedAnswer := some (extractLastName t.name),
            matchType := some MatchType.last_name }
        else { isCorrect := false })) ∧
    (normalizePlayerName t.name ≠ "" →
      (validatePlayerGuess t.name t).matchType = some MatchType.exact) := by
  refine ⟨?_, ?_, ?_, ?_, ?_, ?_⟩
  · intro h
    simp [validatePlayerGuess, h]
  · intro h0 h1
    have h0' : ¬ (normalizePlayerName t.name = "") := h1 ▸ h0
    simp [validatePlayerGuess, h0, h1, h0']
  · intro fn hfn h0 h1 heq
    have h0' : (normalizePlayerName g = "") = False := eq_false h0
    have h1' : (normalizePlayerName g = normalizePlayerName t.name) = False :=
      eq_false h1
    have heq' : (normalizePlayerName g == normalizePlayerName fn) = true := by
      simp [heq]
    simp only [validatePlayerGuess, fullNameHit, hfn, h0', h1', heq',
      if_false, if_true]
  · intro raw L a hra hparse h0 h1 hfull hfind
    obtain ⟨es, hjv, hes⟩ := parseStringArray_arr hparse
    have hhit : aliasHit (normalizePlayerName g) t = some a := by
      simp [aliasHit, hra, hjv, jsIterate, hes, aliasScan_map_str, hfind]
    simp [validatePlayerGuess, h0, h1, hfull, hhit]
  · intro h0 h1 hfull halias
    simp [validatePlayerGuess, h0, h1, hfull, halias]
  · intro hne
    simp [validatePlayerGuess, hne]

/-- Witness for C2: 'CR7' against Cristiano Ronaldo falls through exact
and full-name matching and is accepted as the first stored alias. -/
theorem validatePlayerGuess_priority_witness :
    validatePlayerGuess "CR7"
        { name := "Cristiano Ronaldo",
          aliases := some "[\"CR7\", \"Ronaldo\"]" } =
      { isCorrect := true, acceptedAnswer := some "CR7",
        matchType := some MatchType.alias } :=
  (validatePlayerGuess_priority "CR7"
      { name := "Cristiano Ronaldo",
        aliases := some "[\"CR7\", \"Ronaldo\"]" }).2.2.2.1
    "[\"CR7\", \"Ronaldo\"]" ["CR7", "Ronaldo"] "CR7" rfl (by decide)
    (by decide) (by decide) (by decide) (by decide)

/-! ## Idempotence of name normalization -/

/-- The characters that can occur in a normalized name: lowercase ASCII
letters, digits, the space, and the hyphen. -/
abbrev outChar (c : Char) : Prop :=
  (0x61 ≤ c.toNat ∧ c.toNat ≤ 0x7A) ∨ (0x30 ≤ c.toNat ∧ c.toNat ≤ 0x39) ∨
  c.toNat = 0x20 ∨ c.toNat = 0x2D

/-- No two adjacent whitespace characters. -/
def wsRel (x y : Char) : Prop := ¬(jsWs x = true ∧ jsWs y = true)

theorem outChar_space : outChar ' ' := by decide

theorem outChar_of_keep_not_ws {c : Char} (hk : keepChar c = true)
    (hw : jsWs c = false) : outChar c := by
  simp [keepChar, jsWs] at hk
  simp [jsWs] at hw
  omega

theorem outChar_ws_eq_space {c : Char} (h : outChar c)
    (hw : jsWs c = true) : c = ' ' := by
  have h32 : c.toNat = 0x20 := by
    simp [jsWs] at hw
    rcases h with ⟨h1, h2⟩ | ⟨h1, h2⟩ | h1 | h1 <;> omega
  have hc := congrArg Char.ofNat h32
  rw [Char.ofNat_toNat] at hc
  exact hc.trans (by decide)

theorem nfdDecompose_outChar {c : Char} (h : outChar c) :
    nfdDecompose c = [c] := by
  have hlt : c.toNat < 0xC0 := by
    rcases h with ⟨h1, h2⟩ | ⟨h1, h2⟩ | h1 | h1 <;> omega
  simp [nfdDecompose, hlt]

theorem isCombiningMark_outChar {c : Char} (h : outChar c) :
    (!isCombiningMark c) = true := by
  have hlt : c.toNat < 0x300 := by
    rcases h with ⟨h1, h2⟩ | ⟨h1, h2⟩ | h1 | h1 <;> omega
  simp [isCombiningMark]
  omega

theorem jsToLower_outChar {c : Char} (h : outChar c) : jsToLower c = c := by
  rw [jsToLower, if_neg]
  rcases h with ⟨h1, h2⟩ | ⟨h1, h2⟩ | h1 | h1 <;> omega

theorem keepChar_outChar {c : Char} (h : outChar c) : keepChar c = true := by
  simp [keepChar, jsWs]
  rcases h with ⟨h1, h2⟩ | ⟨h1, h2⟩ | h1 | h1 <;> omega

theorem flatMap_id_of_mem {l : List Char} {f : Char → List Char}
    (h : ∀ c ∈ l, f c = [c]) : l.flatMap f = l := by
  induction l with
  | nil => rfl
  | cons a tl ih =>
    rw [List.flatMap_cons, h a (List.mem_cons_self a tl),
      ih (fun c hc => h c (List.mem_cons_of_mem a hc))]
    rfl

theorem map_id_of_mem {l : List Char} {f : Char → Char}
    (h : ∀ c ∈ l, f c = c) : l.map f = l := by
  induction l with
  | nil => rfl
  | cons a tl ih =>
    rw [List.map_cons, h a (List.mem_cons_self a tl),
      ih (fun c hc => h c (List.mem_cons_of_mem a hc))]

theorem collapseWs_mem {l : List Char} {c : Char} (h : c ∈ collapseWs l) :
    c = ' ' ∨ (c ∈ l ∧ jsWs c = false) := by
  induction l with
  | nil => simp [collapseWs] at h
  | cons a tl ih =>
    cases tl with
    | nil =>
      simp only [collapseWs, List.mem_singleton] at h
      by_cases hw : jsWs a = true
      · rw [if_pos hw] at h; exact Or.inl h
      · rw [if_neg hw] at h
        subst h
        exact Or.inr ⟨List.mem_singleton_self _, Bool.not_eq_true _ ▸ hw⟩
    | cons b rest =>
      simp only [collapseWs] at h
      by_cases hab : (jsWs a && jsWs b) = true
      · rw [if_pos hab] at h
        rcases ih h with h' | ⟨hmem, hws⟩
        · exact Or.inl h'
        · exact Or.inr ⟨List.mem_cons_of_mem a hmem, hws⟩
      · rw [if_neg hab] at h
        rcases List.mem_cons.mp h with h' | h'
        · by_cases hw : jsWs a = true
          · rw [if_pos hw] at h'; exact Or.inl h'
          · rw [if_neg hw] at h'
            subst h'
            exact Or.inr ⟨List.mem_cons_self _ _, Bool.not_eq_true _ ▸ hw⟩
        · rcases ih h' with h'' | ⟨hmem, hws⟩
          · exact Or.inl h''
          · exact Or.inr ⟨List.mem_cons_of_mem a hmem, hws⟩

theorem collapseWs_cons_not_ws {b : Char} (hb : jsWs b = false) (rest : List Char) :
    ∃ tl, collapseWs (b :: rest) = b :: tl := by
  cases rest with
  | nil => exact ⟨[], by simp [collapseWs, hb]⟩
  | cons r rs =>
    refine ⟨collapseWs (r :: rs), ?_⟩
    simp [collapseWs, hb]

theorem collapseWs_chain (l : List Char) :
    List.Chain' wsRel (collapseWs l) := by
  induction l with
  | nil => simp [collapseWs]
  | cons a tl ih =>
    cases tl with
    | nil => simp [collapseWs]
    | cons b rest =>
      simp only [collapseWs]
      by_cases hab : (jsWs a && jsWs b) = true
      · rw [if_pos hab]; exact ih
      · rw [if_neg hab]
        rw [List.chain'_cons']
        refine ⟨?_, ih⟩
        intro y hy
        by_cases hwa : jsWs a = true
        · have hwb : jsWs b = false := by
            cases hb : jsWs b
            · rfl
            · exact absurd (by simp [hwa, hb]) hab
          obtain ⟨tl2, htl2⟩ := collapseWs_cons_not_ws hwb rest
          rw [htl2] at hy
          simp at hy
          subst hy
          intro hcon
          rw [hwb] at hcon
          exact Bool.false_ne_true hcon.2
        · intro hcon
          rw [if_neg hwa] at hcon
          exact hwa hcon.1

theorem collapseWs_id {l : List Char}
    (hsp : ∀ c ∈ l, jsWs c = true → c = ' ')
    (hch : List.Chain' wsRel l) :
    collapseWs l = l := by
  induction l with
  | nil => rfl
  | cons a tl ih =>
    cases tl with
    | nil =>
      simp only [collapseWs]
      by_cases hw : jsWs a = true
      · rw [if_pos hw, hsp a (List.mem_singleton_self a) hw]
      · rw [if_neg hw]
    | cons b rest =>
      rw [List.chain'_cons] at hch
      simp only [collapseWs]
      have hab : ¬((jsWs a && jsWs b) = true) := by
        intro hcon
        rcases Bool.and_eq_true _ _ |>.mp hcon with ⟨h1, h2⟩
        exact hch.1 ⟨h1, h2⟩
      rw [if_neg hab]
      have htail : collapseWs (b :: rest) = b :: rest :=
        ih (fun c hc hw => hsp c (List.mem_cons_of_mem a hc) hw) hch.2
      rw [htail]
      by_cases hw : jsWs a = true
      · rw [if_pos hw, hsp a (List.mem_cons_self a _) hw]
      · rw [if_neg hw]

theorem head_dropWhile_false (p : Char → Bool) (l : List Char) {c : Char}
    (h : (l.dropWhile p).head? = some c) : p c = false := by
  induction l with
  | nil => simp [List.dropWhile] at h
  | cons a tl ih =>
    rw [List.dropWhile_cons] at h
    by_cases hp : p a = true
    · rw [if_pos hp] at h; exact ih h
    · rw [if_neg hp] at h
      simp at h
      subst h
      exact Bool.not_eq_true _ ▸ hp

theorem dropWhile_eq_self_of_head (p : Char → Bool) (l : List Char)
    (h : ∀ c, l.head? = some c → p c = false) : l.dropWhile p = l := by
  cases l with
  | nil => rfl
  | cons a tl =>
    rw [List.dropWhile_cons, if_neg]
    simp [h a rfl]

theorem trimWs_mem {l : List Char} {c : Char} (h : c ∈ trimWs l) : c ∈ l := by
  unfold trimWs at h
  have h2 := (List.dropWhile_suffix jsWs).subset h
  rw [List.mem_reverse] at h2
  have h3 := (List.dropWhile_suffix jsWs).subset h2
  rw [List.mem_reverse] at h3
  exact h3

theorem trimWs_head {l : List Char} {c : Char}
    (h : (trimWs l).head? = some c) : jsWs c = false := by
  unfold trimWs at h
  exact head_dropWhile_false _ _ h

theorem trimWs_getLast {l : List Char} {c : Char}
    (h : (trimWs l).getLast? = some c) : jsWs c = false := by
  unfold trimWs at h
  obtain ⟨t, ht⟩ := List.dropWhile_suffix
    (l := (List.dropWhile jsWs l.reverse).reverse) jsWs
  have hM : ((List.dropWhile jsWs l.reverse).reverse).getLast? = some c := by
    rw [← ht, List.getLast?_append, h]
    rfl
  rw [List.getLast?_reverse] at hM
  exact head_dropWhile_false _ _ hM

theorem trimWs_chain {l : List Char} (h : List.Chain' wsRel l) :
    List.Chain' wsRel (trimWs l) := by
  have hsymm : ∀ x y : Char, wsRel x y → wsRel y x :=
    fun x y hxy hc => hxy ⟨hc.2, hc.1⟩
  have h1 : List.Chain' wsRel l.reverse :=
    List.chain'_reverse.mpr (h.imp (fun x y hxy => hsymm x y hxy))
  have h2 : List.Chain' wsRel (List.dropWhile jsWs l.reverse) :=
    h1.suffix (List.dropWhile_suffix _)
  have h3 : List.Chain' wsRel (List.dropWhile jsWs l.reverse).reverse :=
    List.chain'_reverse.mpr (h2.imp (fun x y hxy => hsymm x y hxy))
  exact h3.suffix (List.dropWhile_suffix _)

theorem trimWs_eq_self {l : List Char}
    (hhead : ∀ c, l.head? = some c → jsWs c = false)
    (hlast : ∀ c, l.getLast? = some c → jsWs c = false) :
    trimWs l = l := by
  unfold trimWs
  have h1 : List.dropWhile jsWs l.reverse = l.reverse := by
    apply dropWhile_eq_self_of_head
    intro c hc
    rw [List.head?_reverse] at hc
    exact hlast c hc
  rw [h1, List.reverse_reverse]
  exact dropWhile_eq_self_of_head _ _ hhead

theorem normalizeChars_out {l : List Char} {c : Char}
    (hc : c ∈ normalizeChars l) : outChar c := by
  unfold normalizeChars at hc
  have hc5 := trimWs_mem hc
  rcases collapseWs_mem hc5 with h | ⟨hmem4, hws⟩
  · subst h; exact outChar_space
  · exact outChar_of_keep_not_ws (List.mem_filter.mp hmem4).2 hws

theorem normalizeChars_idem (l : List Char) :
    normalizeChars (normalizeChars l) = normalizeChars l := by
  have hch : List.Chain' wsRel (normalizeChars l) :=
    trimWs_chain (collapseWs_chain _)
  have e1 : (normalizeChars l).flatMap nfdDecompose = normalizeChars l :=
    flatMap_id_of_mem (fun c hc => nfdDecompose_outChar (normalizeChars_out hc))
  have e2 : ((normalizeChars l).filter (fun c => !isCombiningMark c)) =
      normalizeChars l :=
    List.filter_eq_self.mpr
      (fun c hc => isCombiningMark_outChar (normalizeChars_out hc))
  have e3 : (normalizeChars l).map jsToLower = normalizeChars l :=
    map_id_of_mem (fun c hc => jsToLower_outChar (normalizeChars_out hc))
  have e4 : (normalizeChars l).filter keepChar = normalizeChars l :=
    List.filter_eq_self.mpr (fun c hc => keepChar_outChar (normalizeChars_out hc))
  have e5 : collapseWs (normalizeChars l) = normalizeChars l :=
    collapseWs_id
      (fun c hc hw => outChar_ws_eq_space (normalizeChars_out hc) hw) hch
  have e6 : trimWs (normalizeChars l) = normalizeChars l := by
    apply trimWs_eq_self
    · intro c hc
      exact trimWs_head (l := collapseWs ((((l.flatMap nfdDecompose).filter
        (fun c => !isCombiningMark c)).map jsToLower).filter keepChar)) hc
    · intro c hc
      exact trimWs_getLast (l := collapseWs ((((l.flatMap nfdDecompose).filter
        (fun c => !isCombiningMark c)).map jsToLower).filter keepChar)) hc
  conv_lhs => rw [normalizeChars]
  rw [e1, e2, e3, e4, e5, e6]

/-- C7: name normalization is idempotent - normalizing an already
normalized string leaves it unchanged, for every input string. -/
theorem normalizePlayerName_idempotent (s : String) :
    normalizePlayerName (normalizePlayerName s) = normalizePlayerName s := by
  show String.mk (normalizeChars (String.mk (normalizeChars s.data)).data) =
    String.mk (normalizeChars s.data)
  exact congrArg String.mk (normalizeChars_idem s.data)

end FootballIQ
